import Mathlib

/-!
Verification of the Harmonic Modifier & Playback Engine.

Shallow embedding of:
- the modifier catalog and category-conflict resolver
  (src/config/chords.ts, src/config/chordModifierRules.ts),
- the modifier application engine and interval calculator
  (src/components/ChordCard.tsx: calculateIntervals, handleTap, handleLongPress),
- the long-press gesture classifier
  (src/components/ChordCard.tsx: handlePointerDown/Up/Leave and its timeout),
- the progression scheduler
  (src/components/ChordTimeline.tsx: handlePlayPause and its interval tick).

JavaScript `Set<string>` values are modelled as duplicate-free lists in
insertion order (JS sets iterate in insertion order); `Set.add` appends when
the element is absent, `Set.delete` removes the single occurrence.
-/

namespace TheoryTool

/-- Harmonic categories of chord modifiers (chordModifierRules.ts). -/
inductive ModifierCategory
  | seventh
  | extension
  | addition
  | suspension
  | quality
deriving DecidableEq

/-- MODIFIER_CATEGORIES from chordModifierRules.ts: maps each modifier label
to its category; unknown labels have no category. -/
def MODIFIER_CATEGORIES : String → Option ModifierCategory
  | "7" => some .seventh
  | "maj7" => some .seventh
  | "6" => some .seventh
  | "9" => some .extension
  | "maj9" => some .extension
  | "11" => some .extension
  | "13" => some .extension
  | "add9" => some .addition
  | "sus2" => some .suspension
  | "sus4" => some .suspension
  | "dim" => some .quality
  | "aug" => some .quality
  | _ => none

/-- CATEGORY_CONFLICTS from chordModifierRules.ts: when a modifier of the
given category is added, all active modifiers whose category is in the
returned list are evicted. -/
def CATEGORY_CONFLICTS : ModifierCategory → List ModifierCategory
  | .seventh => [.seventh, .extension]
  | .extension => [.extension, .seventh, .addition, .quality]
  | .addition => [.addition, .extension]
  | .suspension => [.suspension, .quality]
  | .quality => [.quality, .suspension, .extension, .addition]

/-- getConflictingModifiers from chordModifierRules.ts: the active labels that
conflict with the modifier being added.  A candidate with no catalog category
yields no conflicts; active labels with no category are never flagged. -/
def getConflictingModifiers (modifierToAdd : String)
    (activeModifiers : List String) : List String :=
  match MODIFIER_CATEGORIES modifierToAdd with
  | none => []
  | some category =>
    activeModifiers.filter fun activeModifier =>
      match MODIFIER_CATEGORIES activeModifier with
      | some activeCategory => (CATEGORY_CONFLICTS category).contains activeCategory
      | none => false

/-- Boolean form of "adding `a` evicts an active `b`": both labels have a
catalog category and `b`'s category is in `a`'s category conflict list. -/
def evicts (a b : String) : Bool :=
  match MODIFIER_CATEGORIES a, MODIFIER_CATEGORIES b with
  | some ca, some cb => (CATEGORY_CONFLICTS ca).contains cb
  | _, _ => false

/-- Two labels' categories conflict per the category-conflict table, read
symmetrically: the table lists one label's category among the conflicts of
the other's (in either direction). -/
def conflictsPerTable (a b : String) : Bool :=
  evicts a b || evicts b a

/-- A chord modifier entry of the catalog (types/chords.ts). -/
structure ChordModifier where
  label : String
  intervalToAdd : Option Int := none
  intervalsToAdd : Option (List Int) := none
  intervalToRemove : Option Int := none
  replaceWith : Option (List Int) := none
deriving DecidableEq

/-- CHORD_MODIFIERS from config/chords.ts: the 12-entry modifier catalog. -/
def CHORD_MODIFIERS : List ChordModifier :=
  [ { label := "7", intervalToAdd := some 10 },
    { label := "maj7", intervalToAdd := some 11 },
    { label := "6", intervalToAdd := some 9 },
    { label := "sus2", replaceWith := some [0, 2, 7] },
    { label := "sus4", replaceWith := some [0, 5, 7] },
    { label := "dim", replaceWith := some [0, 3, 6] },
    { label := "9", intervalsToAdd := some [10, 14] },
    { label := "maj9", intervalsToAdd := some [11, 14] },
    { label := "11", intervalsToAdd := some [10, 14, 17] },
    { label := "13", intervalsToAdd := some [10, 14, 21] },
    { label := "add9", intervalToAdd := some 14 },
    { label := "aug", replaceWith := some [0, 4, 8] } ]

/-- Catalog lookup by label (`CHORD_MODIFIERS.find(m => m.label === modLabel)`). -/
def findModifier (modLabel : String) : Option ChordModifier :=
  CHORD_MODIFIERS.find? fun m => m.label == modLabel

/-- Application of one additive modifier to a working interval list, following
the branch order of the second forEach of calculateIntervals (ChordCard.tsx):
intervalsToAdd first, else intervalToAdd, else intervalToRemove. -/
def applyAdditive (intervals : List Int) (m : ChordModifier) : List Int :=
  match m.intervalsToAdd with
  | some list =>
    list.foldl (fun acc i => if acc.contains i then acc else acc ++ [i]) intervals
  | none =>
    match m.intervalToAdd with
    | some i => if intervals.contains i then intervals else intervals ++ [i]
    | none =>
      match m.intervalToRemove with
      | some i => intervals.filter fun x => x ≠ i
      | none => intervals

/-- One step of the first forEach of calculateIntervals: a replacement
modifier overwrites the working base, an additive modifier is collected. -/
def collectStep (st : List Int × List ChordModifier) (modLabel : String) :
    List Int × List ChordModifier :=
  match findModifier modLabel with
  | none => st
  | some m =>
    match m.replaceWith with
    | some r => (r, st.2)
    | none => (st.1, st.2 ++ [m])

/-- calculateIntervals from ChordCard.tsx: starting from the base intervals,
replacement modifiers overwrite the base (last one wins), additive modifiers
are collected and then applied in order, and the result is sorted ascending. -/
def calculateIntervals (baseIntervals : List Int) (modifiers : List String) :
    List Int :=
  let acc := modifiers.foldl collectStep (baseIntervals, [])
  List.insertionSort (· ≤ ·) (acc.2.foldl applyAdditive acc.1)

/-- The interval set of the last replacement modifier among the active labels,
if any (mirrors the overwriting in calculateIntervals's first forEach). -/
def lastReplace : List String → Option (List Int)
  | [] => none
  | l :: ms =>
    match lastReplace ms with
    | some r => some r
    | none =>
      match findModifier l with
      | some m => m.replaceWith
      | none => none

/-- The additive (non-replacement) catalog entries of the active labels, in
order (mirrors the additiveMods collection in calculateIntervals). -/
def additiveOf : List String → List ChordModifier
  | [] => []
  | l :: ms =>
    match findModifier l with
    | none => additiveOf ms
    | some m =>
      match m.replaceWith with
      | some _ => additiveOf ms
      | none => m :: additiveOf ms

/-- JS `Set.add` on the insertion-order list model: append when absent. -/
def setAdd (l : List String) (x : String) : List String :=
  if l.contains x then l else l ++ [x]

/-- `conflicts.forEach(m => set.delete(m))` on the list model. -/
def eraseAll (l : List String) (conflicts : List String) : List String :=
  conflicts.foldl (fun acc m => acc.erase m) l

/-- Per-chord modifier state of ChordCard.tsx: the locked-modifier set, the
transient (temp) modifier, and the currently displayed interval list. -/
structure EngineState where
  locked : List String
  temp : Option String
  current : List Int
deriving DecidableEq

/-- Initial ChordCard state: no modifiers, intervals at the chord's base. -/
def initState (baseIntervals : List Int) : EngineState :=
  { locked := [], temp := none, current := baseIntervals }

/-- The active modifier set `locked ∪ temp` (`new Set(locked)` then
`active.add(temp)`), in JS Set insertion order. -/
def activeList (s : EngineState) : List String :=
  match s.temp with
  | none => s.locked
  | some t => setAdd s.locked t

/-- handleTap from ChordCard.tsx.  Returns the new state and the interval
list passed to playChord. -/
def onTap (baseIntervals : List Int) (s : EngineState) (label : String) :
    EngineState × List Int :=
  if s.temp = some label then
    let newIntervals := calculateIntervals baseIntervals s.locked
    ({ locked := s.locked, temp := none, current := newIntervals }, newIntervals)
  else if s.locked.contains label then
    (s, s.current)
  else
    let newActive := setAdd s.locked label
    let newIntervals := calculateIntervals baseIntervals newActive
    ({ locked := s.locked, temp := some label, current := newIntervals },
     newIntervals)

/-- The locked-set update of handleLongPress: unlock a locked label, or
evict the conflicting locked modifiers and lock the new label. -/
def newLockedOf (s : EngineState) (label : String) : List String :=
  if s.locked.contains label then
    s.locked.erase label
  else
    setAdd (eraseAll s.locked (getConflictingModifiers label s.locked)) label

/-- The temp-modifier validation of handleLongPress: clear the temp when it
is now locked (redundant) or conflicts with the new locked set. -/
def newTempOf (s : EngineState) (newLocked : List String) : Option String :=
  match s.temp with
  | none => none
  | some t =>
    if newLocked.contains t then none
    else if (getConflictingModifiers t newLocked).isEmpty then some t
    else none

/-- handleLongPress from ChordCard.tsx: toggle the lock, auto-evicting
conflicting locked modifiers on lock, then clear the temp modifier when it
became locked or now conflicts, then recompute and play. -/
def onLongPress (baseIntervals : List Int) (s : EngineState) (label : String) :
    EngineState × List Int :=
  let newLocked := newLockedOf s label
  let newTemp := newTempOf s newLocked
  let newActive :=
    match newTemp with
    | none => newLocked
    | some t => setAdd newLocked t
  let newIntervals := calculateIntervals baseIntervals newActive
  ({ locked := newLocked, temp := newTemp, current := newIntervals },
   newIntervals)

/-- States of one ChordCard reachable from the initial state by any sequence
of tap and long-press transitions. -/
inductive Reachable (baseIntervals : List Int) : EngineState → Prop
  | init : Reachable baseIntervals (initState baseIntervals)
  | tap (s : EngineState) (label : String) :
      Reachable baseIntervals s →
      Reachable baseIntervals (onTap baseIntervals s label).1
  | longPress (s : EngineState) (label : String) :
      Reachable baseIntervals s →
      Reachable baseIntervals (onLongPress baseIntervals s label).1

/-- The state reached from a fresh major-triad card by long-pressing "dim"
and then long-pressing "add9". -/
def lockedQualityAdditionState : EngineState :=
  (onLongPress [0, 4, 7]
    (onLongPress [0, 4, 7] (initState [0, 4, 7]) "dim").1 "add9").1

/-- Discrete gesture events the classifier emits. -/
inductive GEvent
  | tap (label : String)
  | longPress (label : String)
deriving DecidableEq

/-- State of the long-press detection refs of ChordCard.tsx.  `pending` is
the queue of armed setTimeout callbacks (timer id and the label captured in
the closure); `pressTimerRef`, `isLongPressRef` and `currentModifierRef`
mirror the three refs.  `nextId` models setTimeout handing out fresh ids. -/
structure GestureState where
  nextId : Nat
  pending : List (Nat × String)
  pressTimerRef : Option Nat
  isLongPressRef : Bool
  currentModifierRef : Option String
deriving DecidableEq

/-- Initial gesture state: no timer armed, no press recorded. -/
def gestureInit : GestureState :=
  { nextId := 0, pending := [], pressTimerRef := none, isLongPressRef := false,
    currentModifierRef := none }

/-- Inputs to the gesture classifier: the three pointer handlers and the
expiry of an armed timeout (`fire id` is a no-op if timer `id` was cleared). -/
inductive GStep
  | down (label : String)
  | up
  | leave
  | fire (id : Nat)

/-- clearTimeout(pressTimerRef.current) followed by nulling the ref. -/
def clearPressTimer (s : GestureState) : GestureState :=
  match s.pressTimerRef with
  | some id =>
    { s with pending := s.pending.filter (fun q => q.1 != id),
             pressTimerRef := none }
  | none => s

/-- One input processed by the handlers of ChordCard.tsx.
handlePointerDown arms a fresh timeout and overwrites the refs without
clearing a previously armed timer; timeout expiry sets isLongPressRef and
emits LongPress of the captured label; handlePointerUp clears the timer and
emits Tap unless a long press fired; handlePointerLeave clears the timer
and emits nothing. -/
def gestureStep (s : GestureState) : GStep → GestureState × List GEvent
  | .down label =>
    ({ nextId := s.nextId + 1,
       pending := s.pending ++ [(s.nextId, label)],
       pressTimerRef := some s.nextId,
       isLongPressRef := false,
       currentModifierRef := some label }, [])
  | .fire id =>
    match s.pending.find? (fun p => p.1 == id) with
    | none => (s, [])
    | some p =>
      ({ s with pending := s.pending.filter (fun q => q.1 != id),
                isLongPressRef := true }, [.longPress p.2])
  | .up =>
    let s1 := clearPressTimer s
    let events :=
      if s1.isLongPressRef then []
      else
        match s1.currentModifierRef with
        | some m => [GEvent.tap m]
        | none => []
    ({ s1 with currentModifierRef := none }, events)
  | .leave =>
    let s1 := clearPressTimer s
    ({ s1 with currentModifierRef := none }, [])

/-- Run a sequence of gesture inputs, accumulating emitted events. -/
def runGesture (s : GestureState) : List GStep → GestureState × List GEvent
  | [] => (s, [])
  | step :: rest =>
    let r1 := gestureStep s step
    let r2 := runGesture r1.1 rest
    (r2.1, r1.2 ++ r2.2)

/-- One entry of the chord progression; only its duration (in beats) drives
the scheduler (ChordTimeline.tsx). -/
structure ChordEntry where
  duration : Nat
deriving DecidableEq

/-- The mutable closure state of the armed setInterval of handlePlayPause:
the local chordIndex and beatCount variables and the tick period in
milliseconds. -/
structure TickState where
  chordIndex : Nat
  beatCount : Nat
  periodMs : ℚ
deriving DecidableEq

/-- Scheduler state of ChordTimeline.tsx: playbackState.isPlaying,
playbackState.currentBeat, currentIndexRef, and the armed interval
(none when intervalRef.current is null). -/
structure SchedState where
  isPlaying : Bool
  currentBeat : Nat
  currentIndexRef : Nat
  interval : Option TickState
deriving DecidableEq

/-- The stop branch of handlePlayPause: when playing, clear the interval,
set isPlaying false and reset both playhead indices; when already stopped
the branch body does not run. -/
def stopPlayback (s : SchedState) : SchedState :=
  if s.isPlaying then
    { isPlaying := false, currentBeat := 0, currentIndexRef := 0,
      interval := none }
  else s

/-- The play branch of handlePlayPause: a no-op on an empty progression;
otherwise start playing, reset the playhead, trigger entry 0 immediately and
arm the interval with period 60000/tempo ms and fresh closure counters.
The returned list holds the indices of the progression entries whose
playback was triggered. -/
def play (progression : List ChordEntry) (tempo : ℚ) (s : SchedState) :
    SchedState × List Nat :=
  if progression.isEmpty then (s, [])
  else
    ({ isPlaying := true, currentBeat := 0, currentIndexRef := 0,
       interval := some { chordIndex := 0, beatCount := 0,
                          periodMs := 60000 / tempo } }, [0])

/-- One firing of the armed setInterval callback of handlePlayPause.
Advances beatCount; on reaching the current entry's duration advances the
chord index, wrapping when loop is set and stopping otherwise; on advancing
it triggers the new entry and reports it via setPlaybackBeat.  A tick with
no armed interval does nothing (clearInterval guarantees no further
callbacks). -/
def tick (progression : List ChordEntry) (loop : Bool) (s : SchedState) :
    SchedState × List Nat :=
  match s.interval with
  | none => (s, [])
  | some ts =>
    let beatCount := ts.beatCount + 1
    match progression.get? ts.chordIndex with
    | some currentChord =>
      if currentChord.duration ≤ beatCount then
        let chordIndex := ts.chordIndex + 1
        if progression.length ≤ chordIndex then
          if loop then
            ({ s with currentBeat := 0,
                      interval := some { chordIndex := 0, beatCount := 0,
                                         periodMs := ts.periodMs } }, [0])
          else
            ({ isPlaying := false, currentBeat := 0,
               currentIndexRef := s.currentIndexRef, interval := none }, [])
        else
          ({ s with currentBeat := chordIndex,
                    interval := some { chordIndex := chordIndex, beatCount := 0,
                                       periodMs := ts.periodMs } }, [chordIndex])
      else
        ({ s with interval := some { chordIndex := ts.chordIndex,
                                     beatCount := beatCount,
                                     periodMs := ts.periodMs } }, [])
    | none =>
      ({ s with interval := some { chordIndex := ts.chordIndex,
                                   beatCount := beatCount,
                                   periodMs := ts.periodMs } }, [])

/-- Run `n` consecutive interval firings, accumulating triggered entries. -/
def runTicks (progression : List ChordEntry) (loop : Bool) (s : SchedState) :
    Nat → SchedState × List Nat
  | 0 => (s, [])
  | n + 1 =>
    let r1 := tick progression loop s
    let r2 := runTicks progression loop r1.1 n
    (r2.1, r1.2 ++ r2.2)

theorem mem_getConflictingModifiers {l x : String} {active : List String} :
    x ∈ getConflictingModifiers l active ↔ x ∈ active ∧ evicts l x = true := by
  unfold getConflictingModifiers evicts
  cases h : MODIFIER_CATEGORIES l with
  | none => simp
  | some c =>
    rw [List.mem_filter]
    cases hx : MODIFIER_CATEGORIES x with
    | none => simp [hx]
    | some cx => simp [hx]

theorem evicts_iff {a b : String} :
    evicts a b = true ↔
      ∃ ca cb, MODIFIER_CATEGORIES a = some ca ∧
        MODIFIER_CATEGORIES b = some cb ∧ cb ∈ CATEGORY_CONFLICTS ca := by
  unfold evicts
  cases h : MODIFIER_CATEGORIES a with
  | none => simp [h]
  | some ca =>
    cases h2 : MODIFIER_CATEGORIES b with
    | none => simp [h, h2]
    | some cb => simp [h, h2, List.elem_iff]

/-- C3: `resolveConflicts` (getConflictingModifiers) is a total function that
returns exactly the active labels whose category appears in the candidate's
category's conflict list; a candidate with no catalog category yields the
empty list, and every returned label is a member of the input active set. -/
theorem resolveConflicts_spec (l : String) (active : List String) :
    (∀ x, x ∈ getConflictingModifiers l active ↔
      x ∈ active ∧ ∃ ca cx, MODIFIER_CATEGORIES l = some ca ∧
        MODIFIER_CATEGORIES x = some cx ∧ cx ∈ CATEGORY_CONFLICTS ca) ∧
    (MODIFIER_CATEGORIES l = none → getConflictingModifiers l active = []) ∧
    (∀ x, x ∈ getConflictingModifiers l active → x ∈ active) := by
  refine ⟨fun x => ?_, fun h => ?_, fun x hx => ?_⟩
  · rw [mem_getConflictingModifiers, evicts_iff]
  · unfold getConflictingModifiers
    rw [h]
  · exact (mem_getConflictingModifiers.mp hx).1

/-- Witness for C3 at concrete inputs: an unknown label has no category and
yields no conflicts; "9" flags the active "7". -/
theorem resolveConflicts_spec_witness :
    MODIFIER_CATEGORIES "zzz" = none ∧
    getConflictingModifiers "zzz" ["7"] = [] ∧
    ("7" ∈ getConflictingModifiers "9" ["7", "add9"] ↔
      "7" ∈ ["7", "add9"] ∧ ∃ ca cx, MODIFIER_CATEGORIES "9" = some ca ∧
        MODIFIER_CATEGORIES "7" = some cx ∧ cx ∈ CATEGORY_CONFLICTS ca) :=
  ⟨rfl, (resolveConflicts_spec "zzz" ["7"]).2.1 rfl,
   (resolveConflicts_spec "9" ["7", "add9"]).1 "7"⟩

/-- C2 (evaluation at the failing input): the category-conflict table is not
symmetric in the reachability sense.  Adding the quality modifier "dim" with
the addition "add9" active flags "add9" for eviction, but adding "add9" with
"dim" active flags nothing, because `quality` lists `addition` among its
conflicts while `addition` does not list `quality`. -/
theorem conflictTable_asymmetry_eval :
    getConflictingModifiers "dim" ["add9"] = ["add9"] ∧
    getConflictingModifiers "add9" ["dim"] = [] ∧
    MODIFIER_CATEGORIES "dim" = some .quality ∧
    MODIFIER_CATEGORIES "add9" = some .addition ∧
    ModifierCategory.addition ∈ CATEGORY_CONFLICTS .quality ∧
    ModifierCategory.quality ∉ CATEGORY_CONFLICTS .addition :=
  ⟨rfl, rfl, rfl, rfl, by decide, by decide⟩

/-- C5: each enumerated pointer interaction emits exactly one of Tap or
LongPress, never both.  Down then up before the timer fires emits exactly one
Tap; down, timer expiry, then up emits exactly one LongPress and the up is
swallowed; leave while pressed cancels the armed timer (it can no longer
fire) and emits nothing. -/
theorem gesture_tap_xor_longPress (label : String) :
    (runGesture gestureInit [.down label, .up]).2 = [.tap label] ∧
    (runGesture gestureInit [.down label, .fire 0, .up]).2 = [.longPress label] ∧
    (runGesture gestureInit [.down label, .leave]).2 = [] ∧
    (runGesture gestureInit [.down label, .leave]).1.pending = [] ∧
    (runGesture gestureInit [.down label, .leave, .fire 0]).2 = [] :=
  ⟨rfl, rfl, rfl, rfl, rfl⟩

/-- C6 (evaluation at the failing input): a pointer-down arriving while a
press is already armed is not ignored.  After down("dim") then down("aug"),
two timeouts are outstanding, the recorded target label has changed to
"aug", and the first (no longer referenced) timeout can still fire a
LongPress("dim"). -/
theorem pointerDown_reentrant_eval :
    (runGesture gestureInit [.down "dim", .down "aug"]).1.pending =
      [(0, "dim"), (1, "aug")] ∧
    (runGesture gestureInit [.down "dim", .down "aug"]).1.pressTimerRef =
      some 1 ∧
    (runGesture gestureInit [.down "dim", .down "aug"]).1.currentModifierRef =
      some "aug" ∧
    (runGesture gestureInit [.down "dim", .down "aug", .fire 0]).2 =
      [.longPress "dim"] :=
  ⟨rfl, rfl, rfl, rfl⟩

/-- C10: with no active modifiers, calculateIntervals returns exactly the
base intervals sorted ascending — nothing is added, removed or replaced. -/
theorem calculateIntervals_empty_identity (baseIntervals : List Int) :
    calculateIntervals baseIntervals [] =
      List.insertionSort (· ≤ ·) baseIntervals ∧
    (calculateIntervals baseIntervals []).Perm baseIntervals ∧
    List.Sorted (· ≤ ·) (calculateIntervals baseIntervals []) :=
  ⟨rfl, List.perm_insertionSort _ baseIntervals,
   List.sorted_insertionSort _ baseIntervals⟩

theorem runTicks_of_interval_eq_none (progression : List ChordEntry)
    (loop : Bool) :
    ∀ (n : Nat) (s : SchedState), s.interval = none →
      runTicks progression loop s n = (s, []) := by
  intro n
  induction n with
  | zero => intro s _; rfl
  | succ n ih =>
    intro s h
    have ht : tick progression loop s = (s, []) := by
      unfold tick
      rw [h]
    simp [runTicks, ht, ih s h]

/-- C7: stop on a playing scheduler cancels the armed interval (so no
further tick fires and no further playback trigger occurs), sets isPlaying
to false and resets both the reported beat and the current index to 0;
stop on an already stopped scheduler is a no-op. -/
theorem stop_semantics (progression : List ChordEntry) (loop : Bool)
    (s : SchedState) (h : s.isPlaying = true) :
    stopPlayback s = { isPlaying := false, currentBeat := 0,
                       currentIndexRef := 0, interval := none } ∧
    (∀ n, runTicks progression loop (stopPlayback s) n = (stopPlayback s, [])) ∧
    stopPlayback (stopPlayback s) = stopPlayback s ∧
    (∀ s', s'.isPlaying = false → stopPlayback s' = s') := by
  have h1 : stopPlayback s =
      { isPlaying := false, currentBeat := 0, currentIndexRef := 0,
        interval := none } := by
    simp [stopPlayback, h]
  refine ⟨h1, fun n => ?_, ?_, fun s' h' => ?_⟩
  · exact runTicks_of_interval_eq_none progression loop n _ (by rw [h1])
  · rw [h1]
    simp [stopPlayback]
  · simp [stopPlayback, h']

/-- Witness for C7: stopping a concrete mid-playback state clears the
interval, resets the playhead, and five further tick opportunities fire
nothing. -/
theorem stop_semantics_witness :
    (({ isPlaying := true, currentBeat := 3, currentIndexRef := 2,
        interval := some { chordIndex := 1, beatCount := 1, periodMs := 500 } } :
      SchedState)).isPlaying = true ∧
    stopPlayback { isPlaying := true, currentBeat := 3, currentIndexRef := 2,
                   interval := some { chordIndex := 1, beatCount := 1,
                                      periodMs := 500 } } =
      { isPlaying := false, currentBeat := 0, currentIndexRef := 0,
        interval := none } ∧
    runTicks [{ duration := 2 }] false
        (stopPlayback { isPlaying := true, currentBeat := 3,
                        currentIndexRef := 2,
                        interval := some { chordIndex := 1, beatCount := 1,
                                           periodMs := 500 } }) 5 =
      (stopPlayback { isPlaying := true, currentBeat := 3,
                      currentIndexRef := 2,
                      interval := some { chordIndex := 1, beatCount := 1,
                                         periodMs := 500 } }, []) :=
  ⟨rfl, (stop_semantics [{ duration := 2 }] false _ rfl).1,
   (stop_semantics [{ duration := 2 }] false _ rfl).2.1 5⟩

/-- C8: starting playback on an empty progression is a no-op (no state
change, no trigger); on a non-empty progression it sets isPlaying, resets
the playhead index to 0, triggers entry 0 immediately, and arms the
recurring tick with period (60 / tempoBPM) seconds per beat, i.e.
60/tempo * 1000 milliseconds. -/
theorem play_semantics (progression : List ChordEntry) (tempo : ℚ)
    (s : SchedState) :
    (progression = [] → play progression tempo s = (s, [])) ∧
    (progression ≠ [] →
      play progression tempo s =
        ({ isPlaying := true, currentBeat := 0, currentIndexRef := 0,
           interval := some { chordIndex := 0, beatCount := 0,
                              periodMs := 60 / tempo * 1000 } }, [0])) := by
  constructor
  · intro h
    subst h
    rfl
  · intro h
    have hq : (60000 : ℚ) / tempo = 60 / tempo * 1000 := by ring
    simp [play, h, hq]

/-- Witness for C8: playing the empty progression changes nothing; playing a
one-entry progression at 120 BPM starts at entry 0 with a 500 ms period. -/
theorem play_semantics_witness :
    play ([] : List ChordEntry) 120
        { isPlaying := false, currentBeat := 0, currentIndexRef := 0,
          interval := none } =
      ({ isPlaying := false, currentBeat := 0, currentIndexRef := 0,
         interval := none }, []) ∧
    play [{ duration := 2 }] 120
        { isPlaying := false, currentBeat := 0, currentIndexRef := 0,
          interval := none } =
      ({ isPlaying := true, currentBeat := 0, currentIndexRef := 0,
         interval := some { chordIndex := 0, beatCount := 0,
                            periodMs := 60 / 120 * 1000 } }, [0]) :=
  ⟨(play_semantics [] 120 _).1 rfl,
   (play_semantics [{ duration := 2 }] 120 _).2 (List.cons_ne_nil _ _)⟩

theorem foldl_collectStep (modifiers : List String) :
    ∀ (b : List Int) (a : List ChordModifier),
      modifiers.foldl collectStep (b, a) =
        ((lastReplace modifiers).getD b, a ++ additiveOf modifiers) := by
  induction modifiers with
  | nil =>
    intro b a
    simp [lastReplace, additiveOf]
  | cons l ms ih =>
    intro b a
    rw [List.foldl_cons]
    cases hf : findModifier l with
    | none =>
      have hstep : collectStep (b, a) l = (b, a) := by
        unfold collectStep
        rw [hf]
      rw [hstep, ih]
      cases hlr : lastReplace ms <;>
        simp [lastReplace, additiveOf, hf, hlr]
    | some m =>
      cases hr : m.replaceWith with
      | none =>
        have hstep : collectStep (b, a) l = (b, a ++ [m]) := by
          unfold collectStep
          rw [hf]
          simp [hr]
        rw [hstep, ih]
        cases hlr : lastReplace ms <;>
          simp [lastReplace, additiveOf, hf, hr, hlr]
      | some r =>
        have hstep : collectStep (b, a) l = (r, a) := by
          unfold collectStep
          rw [hf]
          simp [hr]
        rw [hstep, ih]
        cases hlr : lastReplace ms <;>
          simp [lastReplace, additiveOf, hf, hr, hlr]

theorem nodup_foldl_addIfAbsent (list : List Int) :
    ∀ acc : List Int, acc.Nodup →
      (list.foldl (fun acc i => if acc.contains i then acc else acc ++ [i])
        acc).Nodup := by
  induction list with
  | nil =>
    intro acc h
    exact h
  | cons i is ih =>
    intro acc h
    simp only [List.foldl_cons]
    by_cases hc : acc.contains i
    · rw [if_pos hc]
      exact ih acc h
    · rw [if_neg hc]
      refine ih _ ?_
      have hi : i ∉ acc := by simpa [List.elem_iff] using hc
      simp [List.nodup_append, h, hi]

theorem nodup_applyAdditive (m : ChordModifier) (intervals : List Int)
    (h : intervals.Nodup) : (applyAdditive intervals m).Nodup := by
  cases h1 : m.intervalsToAdd with
  | some list =>
    simp only [applyAdditive, h1]
    exact nodup_foldl_addIfAbsent list intervals h
  | none =>
    cases h2 : m.intervalToAdd with
    | some i =>
      simp only [applyAdditive, h1, h2]
      by_cases hc : intervals.contains i
      · rw [if_pos hc]
        exact h
      · rw [if_neg hc]
        have hi : i ∉ intervals := by simpa [List.elem_iff] using hc
        simp [List.nodup_append, h, hi]
    | none =>
      cases h3 : m.intervalToRemove with
      | some i =>
        simp only [applyAdditive, h1, h2, h3]
        exact h.filter _
      | none =>
        simp only [applyAdditive, h1, h2, h3]
        exact h

theorem nodup_foldl_applyAdditive (mods : List ChordModifier) :
    ∀ intervals : List Int, intervals.Nodup →
      (mods.foldl applyAdditive intervals).Nodup := by
  induction mods with
  | nil =>
    intro intervals h
    exact h
  | cons m ms ih =>
    intro intervals h
    simp only [List.foldl_cons]
    exact ih _ (nodup_applyAdditive m intervals h)

theorem replaceWith_nodup :
    ∀ m ∈ CHORD_MODIFIERS, (m.replaceWith.getD []).Nodup := by decide

theorem lastReplace_nodup :
    ∀ (modifiers : List String) (r : List Int),
      lastReplace modifiers = some r → r.Nodup := by
  intro modifiers
  induction modifiers with
  | nil =>
    intro r h
    exact absurd h (by simp [lastReplace])
  | cons l ms ih =>
    intro r h
    unfold lastReplace at h
    cases hlr : lastReplace ms with
    | some rr =>
      simp only [hlr] at h
      cases h
      exact ih r hlr
    | none =>
      simp only [hlr] at h
      cases hf : findModifier l with
      | none =>
        simp only [hf] at h
        cases h
      | some m =>
        simp only [hf] at h
        have hm : m ∈ CHORD_MODIFIERS := List.mem_of_find?_eq_some hf
        have hn := replaceWith_nodup m hm
        rw [h] at hn
        simpa using hn

/-- C4: calculateIntervals discards the base and adopts the (last surviving)
replace-effect modifier's set as the new base when one is active, then
applies the add / remove effects of the remaining active labels in order,
and returns a sorted, duplicate-free list; when a replace-effect modifier is
active the base intervals do not influence the result, and re-running it on
its own output with no modifiers reproduces that output. -/
theorem calculateIntervals_spec (baseIntervals : List Int)
    (modifiers : List String) (hb : baseIntervals.Nodup) :
    calculateIntervals baseIntervals modifiers =
      List.insertionSort (· ≤ ·)
        ((additiveOf modifiers).foldl applyAdditive
          ((lastReplace modifiers).getD baseIntervals)) ∧
    ((lastReplace modifiers).isSome →
      ∀ base' : List Int, calculateIntervals baseIntervals modifiers =
        calculateIntervals base' modifiers) ∧
    List.Sorted (· ≤ ·) (calculateIntervals baseIntervals modifiers) ∧
    (calculateIntervals baseIntervals modifiers).Nodup ∧
    calculateIntervals (calculateIntervals baseIntervals modifiers) [] =
      calculateIntervals baseIntervals modifiers := by
  have key : ∀ b : List Int, calculateIntervals b modifiers =
      List.insertionSort (· ≤ ·)
        ((additiveOf modifiers).foldl applyAdditive
          ((lastReplace modifiers).getD b)) := by
    intro b
    unfold calculateIntervals
    rw [foldl_collectStep]
    simp
  have hsorted : List.Sorted (· ≤ ·)
      (calculateIntervals baseIntervals modifiers) := by
    rw [key]
    exact List.sorted_insertionSort _ _
  refine ⟨key baseIntervals, fun hsome base' => ?_, hsorted, ?_, ?_⟩
  · rw [key baseIntervals, key base']
    rcases Option.isSome_iff_exists.mp hsome with ⟨r, hr⟩
    rw [hr]
    simp
  · rw [key]
    have hbase : ((lastReplace modifiers).getD baseIntervals).Nodup := by
      cases hlr : lastReplace modifiers with
      | none => simpa using hb
      | some r => simpa using lastReplace_nodup modifiers r hlr
    have := nodup_foldl_applyAdditive (additiveOf modifiers) _ hbase
    exact ((List.perm_insertionSort _ _).nodup_iff).mpr this
  · show List.insertionSort (· ≤ ·)
        (calculateIntervals baseIntervals modifiers) = _
    exact hsorted.insertionSort_eq

/-- Witness for C4 at a concrete chord: a major triad with the replace-effect
"sus4" and the add-effect "9" active. -/
theorem calculateIntervals_spec_witness :
    ([0, 4, 7] : List Int).Nodup ∧
    calculateIntervals [0, 4, 7] ["sus4", "9"] =
      List.insertionSort (· ≤ ·)
        ((additiveOf ["sus4", "9"]).foldl applyAdditive
          ((lastReplace ["sus4", "9"]).getD [0, 4, 7])) ∧
    List.Sorted (· ≤ ·) (calculateIntervals [0, 4, 7] ["sus4", "9"]) ∧
    (calculateIntervals [0, 4, 7] ["sus4", "9"]).Nodup ∧
    calculateIntervals (calculateIntervals [0, 4, 7] ["sus4", "9"]) [] =
      calculateIntervals [0, 4, 7] ["sus4", "9"] :=
  ⟨by decide, (calculateIntervals_spec [0, 4, 7] ["sus4", "9"] (by decide)).1,
   (calculateIntervals_spec [0, 4, 7] ["sus4", "9"] (by decide)).2.2.1,
   (calculateIntervals_spec [0, 4, 7] ["sus4", "9"] (by decide)).2.2.2.1,
   (calculateIntervals_spec [0, 4, 7] ["sus4", "9"] (by decide)).2.2.2.2⟩

theorem eraseAll_cons (l : List String) (c : String) (cs : List String) :
    eraseAll l (c :: cs) = eraseAll (l.erase c) cs := rfl

theorem mem_of_mem_eraseAll {x : String} :
    ∀ (cs l : List String), x ∈ eraseAll l cs → x ∈ l := by
  intro cs
  induction cs with
  | nil =>
    intro l h
    exact h
  | cons c cs ih =>
    intro l h
    rw [eraseAll_cons] at h
    exact List.mem_of_mem_erase (ih (l.erase c) h)

theorem nodup_eraseAll :
    ∀ (cs l : List String), l.Nodup → (eraseAll l cs).Nodup := by
  intro cs
  induction cs with
  | nil =>
    intro l h
    exact h
  | cons c cs ih =>
    intro l h
    rw [eraseAll_cons]
    exact ih (l.erase c) (h.erase c)

theorem not_mem_eraseAll {x : String} :
    ∀ (cs l : List String), l.Nodup → x ∈ cs → x ∉ eraseAll l cs := by
  intro cs
  induction cs with
  | nil =>
    intro l _ hx
    cases hx
  | cons c cs ih =>
    intro l hl hx
    rw [eraseAll_cons]
    rcases List.mem_cons.mp hx with rfl | hx
    · intro hmem
      exact hl.not_mem_erase (mem_of_mem_eraseAll cs (l.erase x) hmem)
    · exact ih (l.erase c) (hl.erase c) hx

theorem newLockedOf_nodup (s : EngineState) (label : String)
    (h : s.locked.Nodup) : (newLockedOf s label).Nodup := by
  unfold newLockedOf
  by_cases hc : s.locked.contains label
  · rw [if_pos hc]
    exact h.erase label
  · rw [if_neg hc]
    have hnl : label ∉ s.locked := by simpa [List.elem_iff] using hc
    have h1 : (eraseAll s.locked (getConflictingModifiers label s.locked)).Nodup :=
      nodup_eraseAll _ _ h
    have h2 : label ∉ eraseAll s.locked (getConflictingModifiers label s.locked) :=
      fun hm => hnl (mem_of_mem_eraseAll _ _ hm)
    unfold setAdd
    rw [if_neg (by simpa [List.elem_iff] using h2)]
    simp [List.nodup_append, h1, h2]

theorem newLockedOf_noMutual (s : EngineState) (label : String)
    (hnd : s.locked.Nodup)
    (h : ∀ a ∈ s.locked, ∀ b ∈ s.locked, a ≠ b →
      ¬(evicts a b = true ∧ evicts b a = true)) :
    ∀ a ∈ newLockedOf s label, ∀ b ∈ newLockedOf s label, a ≠ b →
      ¬(evicts a b = true ∧ evicts b a = true) := by
  unfold newLockedOf
  by_cases hc : s.locked.contains label
  · rw [if_pos hc]
    intro a ha b hb hab
    exact h a (List.mem_of_mem_erase ha) b (List.mem_of_mem_erase hb) hab
  · rw [if_neg hc]
    intro a ha b hb hab
    have hnl : label ∉ s.locked := by simpa [List.elem_iff] using hc
    have hlE : label ∉ eraseAll s.locked (getConflictingModifiers label s.locked) :=
      fun hm => hnl (mem_of_mem_eraseAll _ _ hm)
    have hmem : ∀ x,
        x ∈ setAdd (eraseAll s.locked (getConflictingModifiers label s.locked))
          label →
        x ∈ eraseAll s.locked (getConflictingModifiers label s.locked) ∨
          x = label := by
      intro x hx
      unfold setAdd at hx
      rw [if_neg (by simpa [List.elem_iff] using hlE)] at hx
      rcases List.mem_append.mp hx with h1 | h1
      · exact Or.inl h1
      · right
        simpa using h1
    rcases hmem a ha with haE | rfl
    · rcases hmem b hb with hbE | rfl
      · exact h a (mem_of_mem_eraseAll _ _ haE) b (mem_of_mem_eraseAll _ _ hbE)
          hab
      · rintro ⟨hab1, hab2⟩
        have haL : a ∈ s.locked := mem_of_mem_eraseAll _ _ haE
        have haC : a ∈ getConflictingModifiers b s.locked :=
          mem_getConflictingModifiers.mpr ⟨haL, hab2⟩
        exact not_mem_eraseAll _ _ hnd haC haE
    · rcases hmem b hb with hbE | rfl
      · rintro ⟨hab1, hab2⟩
        have hbL : b ∈ s.locked := mem_of_mem_eraseAll _ _ hbE
        have hbC : b ∈ getConflictingModifiers a s.locked :=
          mem_getConflictingModifiers.mpr ⟨hbL, hab1⟩
        exact not_mem_eraseAll _ _ hnd hbC hbE
      · exact absurd rfl hab

theorem newTempOf_not_mem (s : EngineState) (nl : List String) (t : String)
    (h : newTempOf s nl = some t) : t ∉ nl := by
  unfold newTempOf at h
  cases hs : s.temp with
  | none =>
    simp only [hs] at h
    cases h
  | some u =>
    simp only [hs] at h
    by_cases hc : nl.contains u
    · rw [if_pos hc] at h
      cases h
    · rw [if_neg hc] at h
      by_cases he : (getConflictingModifiers u nl).isEmpty
      · rw [if_pos he] at h
        cases h
        simpa [List.elem_iff] using hc
      · rw [if_neg he] at h
        cases h

/-- C1 (amended): after every tap or long-press transition from the initial
state, no label is simultaneously the transient modifier and a member of
lockedModifiers, the locked set is duplicate-free, and no two distinct
locked labels mutually conflict (each listing the other's category among
its conflicts).  The original one-directional claim fails, see the
counterexample: the table's quality→addition conflict is one-directional,
so "dim" and "add9" can be locked together. -/
theorem engine_invariant (base : List Int) (s : EngineState)
    (h : Reachable base s) :
    (∀ t, s.temp = some t → t ∉ s.locked) ∧
    s.locked.Nodup ∧
    (∀ a ∈ s.locked, ∀ b ∈ s.locked, a ≠ b →
      ¬(evicts a b = true ∧ evicts b a = true)) := by
  induction h with
  | init =>
    refine ⟨fun t ht => ?_, List.nodup_nil, fun a ha => ?_⟩
    · cases ht
    · cases ha
  | tap s label hs ih =>
    obtain ⟨ih1, ih2, ih3⟩ := ih
    by_cases h1 : s.temp = some label
    · simp only [onTap, if_pos h1]
      refine ⟨fun t ht => ?_, ih2, ih3⟩
      cases ht
    · by_cases h2 : s.locked.contains label
      · simp only [onTap, if_neg h1, if_pos h2]
        exact ⟨ih1, ih2, ih3⟩
      · simp only [onTap, if_neg h1, if_neg h2]
        refine ⟨fun t ht => ?_, ih2, ih3⟩
        cases ht
        simpa [List.elem_iff] using h2
  | longPress s label hs ih =>
    obtain ⟨ih1, ih2, ih3⟩ := ih
    refine ⟨fun t ht => ?_, newLockedOf_nodup s label ih2,
      newLockedOf_noMutual s label ih2 ih3⟩
    exact newTempOf_not_mem s _ t ht

/-- Witness for C1's amended invariant at the reachable initial state. -/
theorem engine_invariant_witness :
    Reachable [0, 4, 7] (initState [0, 4, 7]) ∧
    ((∀ t, (initState [0, 4, 7]).temp = some t →
        t ∉ (initState [0, 4, 7]).locked) ∧
     (initState [0, 4, 7]).locked.Nodup ∧
     (∀ a ∈ (initState [0, 4, 7]).locked, ∀ b ∈ (initState [0, 4, 7]).locked,
        a ≠ b → ¬(evicts a b = true ∧ evicts b a = true))) :=
  ⟨Reachable.init, engine_invariant [0, 4, 7] _ Reachable.init⟩

/-- Counterexample to C1 as stated: long-pressing "dim" (quality) and then
"add9" (addition) from a fresh card reaches a state whose locked set holds
both labels, although the table lists addition among quality's conflicts —
the two locked labels' categories conflict per the table. -/
theorem engine_invariant_counterexample :
    Reachable [0, 4, 7] lockedQualityAdditionState ∧
    "dim" ∈ lockedQualityAdditionState.locked ∧
    "add9" ∈ lockedQualityAdditionState.locked ∧
    "dim" ≠ "add9" ∧
    MODIFIER_CATEGORIES "dim" = some .quality ∧
    MODIFIER_CATEGORIES "add9" = some .addition ∧
    ModifierCategory.addition ∈ CATEGORY_CONFLICTS .quality ∧
    conflictsPerTable "dim" "add9" = true := by
  refine ⟨?_, by decide, by decide, by decide, rfl, rfl, by decide, rfl⟩
  exact Reachable.longPress _ "add9" (Reachable.longPress _ "dim" Reachable.init)

theorem current_eq_calc (base : List Int) (hb : List.Sorted (· ≤ ·) base)
    (s : EngineState) (h : Reachable base s) :
    s.current = calculateIntervals base (activeList s) := by
  induction h with
  | init =>
    show base = calculateIntervals base []
    have h0 : calculateIntervals base [] = List.insertionSort (· ≤ ·) base := rfl
    rw [h0, hb.insertionSort_eq]
  | tap s label hs ih =>
    by_cases h1 : s.temp = some label
    · simp only [onTap, if_pos h1]
      rfl
    · by_cases h2 : s.locked.contains label
      · simp only [onTap, if_neg h1, if_pos h2]
        exact ih
      · simp only [onTap, if_neg h1, if_neg h2]
        rfl
  | longPress s label hs ih =>
    rfl

/-- C9: onTap by case.  Tapping the current transient clears it, recomputes
from the locked set alone and plays that; tapping a locked label changes no
state and replays the intervals of the current active combination
(locked ∪ transient); tapping any other label makes it the transient and
recomputes and plays from locked plus that label. -/
theorem onTap_spec (base : List Int) (hb : List.Sorted (· ≤ ·) base)
    (s : EngineState) (hs : Reachable base s) (label : String) :
    (s.temp = some label →
      onTap base s label =
        ({ locked := s.locked, temp := none,
           current := calculateIntervals base s.locked },
         calculateIntervals base s.locked)) ∧
    (s.temp ≠ some label → label ∈ s.locked →
      onTap base s label = (s, calculateIntervals base (activeList s))) ∧
    (s.temp ≠ some label → label ∉ s.locked →
      onTap base s label =
        ({ locked := s.locked, temp := some label,
           current := calculateIntervals base (setAdd s.locked label) },
         calculateIntervals base (setAdd s.locked label))) := by
  refine ⟨fun h1 => ?_, fun h1 h2 => ?_, fun h1 h2 => ?_⟩
  · simp only [onTap, if_pos h1]
  · have hc : s.locked.contains label = true := by
      simpa [List.elem_iff] using h2
    simp only [onTap, if_neg h1, if_pos hc]
    rw [current_eq_calc base hb s hs]
  · have hc : ¬s.locked.contains label = true := by
      simpa [List.elem_iff] using h2
    simp only [onTap, if_neg h1, if_neg hc]

/-- Witness for C9: tapping "7" on a fresh major-triad card makes it the
transient modifier and plays the recomputed chord. -/
theorem onTap_spec_witness :
    List.Sorted (· ≤ ·) ([0, 4, 7] : List Int) ∧
    Reachable [0, 4, 7] (initState [0, 4, 7]) ∧
    onTap [0, 4, 7] (initState [0, 4, 7]) "7" =
      ({ locked := (initState [0, 4, 7]).locked, temp := some "7",
         current := calculateIntervals [0, 4, 7]
           (setAdd (initState [0, 4, 7]).locked "7") },
       calculateIntervals [0, 4, 7] (setAdd (initState [0, 4, 7]).locked "7")) :=
  ⟨by decide, Reachable.init,
   (onTap_spec [0, 4, 7] (by decide) _ Reachable.init "7").2.2
     (by decide) (by decide)⟩

end TheoryTool
